import Mathlib

/-!
Verification of the section-header decoding core of a Rust ELF library
(`src/section.rs`).  The decoder, the wrapper types and their display and
equality behaviour are embedded shallowly; the collaborators that live
outside the given source (the scalar cursor reader, the error type, the
parsing iterator and the table of symbolic type-code constants) are
modelled from the specification.

Machine integers are embedded as `Nat`: a buffer is a `List Nat` whose
elements stand for `u8` values, so every byte access reduces the stored
element modulo 256, mirroring the `u8` element type of the Rust slice.
-/

set_option maxRecDepth 100000

namespace Elf

/-- Byte order of multi-byte fields.
Modelled from the spec: `Endianness`, a closed choice of little or big,
declared in the external parsing module. -/
inductive Endian where
  | Little : Endian
  | Big : Endian
deriving DecidableEq, Repr

/-- Addressing class of the object file.
Modelled from the spec: `Class`, a closed choice of 32-bit or 64-bit,
declared in the external parsing module. -/
inductive Class where
  | ELF32 : Class
  | ELF64 : Class
deriving DecidableEq, Repr

/-- Decoding error.
Modelled from the spec: one error kind is relevant here, insufficient
bytes for a requested field read, reported with the offset that could not
be satisfied (the tests match it as `ParseError::BadOffset(_)`). -/
inductive ParseError where
  | BadOffset : Nat → ParseError
deriving DecidableEq, Repr

/-- Byte of a buffer at an index: the stored element reduced modulo 256
(the Rust buffer has element type `u8`), with 0 for an out-of-range index
(never observed: readers bounds-check before calling). -/
def byteAt (data : List Nat) (i : Nat) : Nat :=
  data.getD i 0 % 256

/-- Value of the 4 bytes at `o` assembled in the given byte order. -/
def u32val (e : Endian) (o : Nat) (data : List Nat) : Nat :=
  match e with
  | .Little =>
      byteAt data o + byteAt data (o + 1) * 2 ^ 8 +
        byteAt data (o + 2) * 2 ^ 16 + byteAt data (o + 3) * 2 ^ 24
  | .Big =>
      byteAt data o * 2 ^ 24 + byteAt data (o + 1) * 2 ^ 16 +
        byteAt data (o + 2) * 2 ^ 8 + byteAt data (o + 3)

/-- Value of the 8 bytes at `o` assembled in the given byte order. -/
def u64val (e : Endian) (o : Nat) (data : List Nat) : Nat :=
  match e with
  | .Little =>
      byteAt data o + byteAt data (o + 1) * 2 ^ 8 +
        byteAt data (o + 2) * 2 ^ 16 + byteAt data (o + 3) * 2 ^ 24 +
        byteAt data (o + 4) * 2 ^ 32 + byteAt data (o + 5) * 2 ^ 40 +
        byteAt data (o + 6) * 2 ^ 48 + byteAt data (o + 7) * 2 ^ 56
  | .Big =>
      byteAt data o * 2 ^ 56 + byteAt data (o + 1) * 2 ^ 48 +
        byteAt data (o + 2) * 2 ^ 40 + byteAt data (o + 3) * 2 ^ 32 +
        byteAt data (o + 4) * 2 ^ 24 + byteAt data (o + 5) * 2 ^ 16 +
        byteAt data (o + 6) * 2 ^ 8 + byteAt data (o + 7)

/-- Scalar cursor read of a `u32`.
Modelled from the spec: the Scalar Cursor Reader reads an unsigned integer
of a given width at an offset, honouring the byte order, advances the
offset by the width, and fails with the insufficient-bytes error when
fewer bytes remain.  Returns the value and the advanced offset. -/
def parse_u32_at (e : Endian) (offset : Nat) (data : List Nat) :
    Except ParseError (Nat × Nat) :=
  if offset + 4 ≤ data.length then
    .ok (u32val e offset data, offset + 4)
  else
    .error (.BadOffset offset)

/-- Scalar cursor read of a `u64`.
Modelled from the spec: same contract as the `u32` read, with width 8. -/
def parse_u64_at (e : Endian) (offset : Nat) (data : List Nat) :
    Except ParseError (Nat × Nat) :=
  if offset + 8 ≤ data.length then
    .ok (u64val e offset data, offset + 8)
  else
    .error (.BadOffset offset)

/-- Wrapper for a section type code (`pub struct SectionType(pub u32)`). -/
structure SectionType where
  val : Nat
deriving DecidableEq, Repr

/-- Wrapper for a section flags value (`pub struct SectionFlag(pub u64)`). -/
structure SectionFlag where
  val : Nat
deriving DecidableEq, Repr

/-- Contents of an ELF section header (`pub struct SectionHeader`); the
`u32` fields hold values below 2^32 and the `u64` fields below 2^64. -/
structure SectionHeader where
  sh_name : Nat
  sh_type : SectionType
  sh_flags : SectionFlag
  sh_addr : Nat
  sh_offset : Nat
  sh_size : Nat
  sh_link : Nat
  sh_info : Nat
  sh_addralign : Nat
  sh_entsize : Nat
deriving DecidableEq, Repr

/-- Decoder for one section header (`SectionHeader::parse_at`): reads the
ten fields in on-disk order, threading the cursor; `u32` reads widened with
`as u64` are zero-extensions, the identity on `Nat`.  Returns the record
and the final cursor, or the first read's error. -/
def SectionHeader.parse_at (e : Endian) (c : Class) (offset : Nat)
    (data : List Nat) : Except ParseError (SectionHeader × Nat) :=
  match c with
  | .ELF32 => do
      let (sh_name, o) ← parse_u32_at e offset data
      let (sh_type, o) ← parse_u32_at e o data
      let (sh_flags, o) ← parse_u32_at e o data
      let (sh_addr, o) ← parse_u32_at e o data
      let (sh_offset, o) ← parse_u32_at e o data
      let (sh_size, o) ← parse_u32_at e o data
      let (sh_link, o) ← parse_u32_at e o data
      let (sh_info, o) ← parse_u32_at e o data
      let (sh_addralign, o) ← parse_u32_at e o data
      let (sh_entsize, o) ← parse_u32_at e o data
      return ({ sh_name := sh_name, sh_type := ⟨sh_type⟩,
                sh_flags := ⟨sh_flags⟩, sh_addr := sh_addr,
                sh_offset := sh_offset, sh_size := sh_size,
                sh_link := sh_link, sh_info := sh_info,
                sh_addralign := sh_addralign, sh_entsize := sh_entsize }, o)
  | .ELF64 => do
      let (sh_name, o) ← parse_u32_at e offset data
      let (sh_type, o) ← parse_u32_at e o data
      let (sh_flags, o) ← parse_u64_at e o data
      let (sh_addr, o) ← parse_u64_at e o data
      let (sh_offset, o) ← parse_u64_at e o data
      let (sh_size, o) ← parse_u64_at e o data
      let (sh_link, o) ← parse_u32_at e o data
      let (sh_info, o) ← parse_u32_at e o data
      let (sh_addralign, o) ← parse_u64_at e o data
      let (sh_entsize, o) ← parse_u64_at e o data
      return ({ sh_name := sh_name, sh_type := ⟨sh_type⟩,
                sh_flags := ⟨sh_flags⟩, sh_addr := sh_addr,
                sh_offset := sh_offset, sh_size := sh_size,
                sh_link := sh_link, sh_info := sh_info,
                sh_addralign := sh_addralign, sh_entsize := sh_entsize }, o)

/-- On-disk widths of the ten fields in order, per class. -/
def fieldWidths : Class → List Nat
  | .ELF32 => [4, 4, 4, 4, 4, 4, 4, 4, 4, 4]
  | .ELF64 => [4, 4, 8, 8, 8, 8, 4, 4, 8, 8]

/-- Record byte length per class, derived as the sum of the field widths. -/
def recordLength (c : Class) : Nat :=
  (fieldWidths c).sum

/-- Shape of a successful 32-bit-class decode: when 40 bytes remain at the
offset, the decode returns the ten fields read at their fixed offsets and
the cursor advanced by 40. -/
theorem parse_at_elf32_of_le (e : Endian) (off : Nat) (d : List Nat)
    (h : off + 40 ≤ d.length) :
    SectionHeader.parse_at e .ELF32 off d =
      .ok ({ sh_name := u32val e off d, sh_type := ⟨u32val e (off + 4) d⟩,
             sh_flags := ⟨u32val e (off + 8) d⟩, sh_addr := u32val e (off + 12) d,
             sh_offset := u32val e (off + 16) d, sh_size := u32val e (off + 20) d,
             sh_link := u32val e (off + 24) d, sh_info := u32val e (off + 28) d,
             sh_addralign := u32val e (off + 32) d,
             sh_entsize := u32val e (off + 36) d }, off + 40) := by
  have p : ∀ o : Nat, o + 4 ≤ d.length →
      parse_u32_at e o d = .ok (u32val e o d, o + 4) := by
    intro o ho; unfold parse_u32_at; rw [if_pos ho]
  simp only [SectionHeader.parse_at, bind, Except.bind, Functor.map, Except.map,
    p off (by omega), p (off + 4) (by omega), p (off + 4 + 4) (by omega),
    p (off + 4 + 4 + 4) (by omega), p (off + 4 + 4 + 4 + 4) (by omega),
    p (off + 4 + 4 + 4 + 4 + 4) (by omega),
    p (off + 4 + 4 + 4 + 4 + 4 + 4) (by omega),
    p (off + 4 + 4 + 4 + 4 + 4 + 4 + 4) (by omega),
    p (off + 4 + 4 + 4 + 4 + 4 + 4 + 4 + 4) (by omega),
    p (off + 4 + 4 + 4 + 4 + 4 + 4 + 4 + 4 + 4) (by omega)]
  simp_arith [pure, Except.pure]

/-- Shape of a successful 64-bit-class decode: when 64 bytes remain at the
offset, the decode returns the ten fields read at their fixed offsets and
the cursor advanced by 64. -/
theorem parse_at_elf64_of_le (e : Endian) (off : Nat) (d : List Nat)
    (h : off + 64 ≤ d.length) :
    SectionHeader.parse_at e .ELF64 off d =
      .ok ({ sh_name := u32val e off d, sh_type := ⟨u32val e (off + 4) d⟩,
             sh_flags := ⟨u64val e (off + 8) d⟩, sh_addr := u64val e (off + 16) d,
             sh_offset := u64val e (off + 24) d, sh_size := u64val e (off + 32) d,
             sh_link := u32val e (off + 40) d, sh_info := u32val e (off + 44) d,
             sh_addralign := u64val e (off + 48) d,
             sh_entsize := u64val e (off + 56) d }, off + 64) := by
  have p : ∀ o : Nat, o + 4 ≤ d.length →
      parse_u32_at e o d = .ok (u32val e o d, o + 4) := by
    intro o ho; unfold parse_u32_at; rw [if_pos ho]
  have q : ∀ o : Nat, o + 8 ≤ d.length →
      parse_u64_at e o d = .ok (u64val e o d, o + 8) := by
    intro o ho; unfold parse_u64_at; rw [if_pos ho]
  simp only [SectionHeader.parse_at, bind, Except.bind, Functor.map, Except.map,
    p off (by omega), p (off + 4) (by omega), q (off + 4 + 4) (by omega),
    q (off + 4 + 4 + 8) (by omega), q (off + 4 + 4 + 8 + 8) (by omega),
    q (off + 4 + 4 + 8 + 8 + 8) (by omega),
    p (off + 4 + 4 + 8 + 8 + 8 + 8) (by omega),
    p (off + 4 + 4 + 8 + 8 + 8 + 8 + 4) (by omega),
    q (off + 4 + 4 + 8 + 8 + 8 + 8 + 4 + 4) (by omega),
    q (off + 4 + 4 + 8 + 8 + 8 + 8 + 4 + 4 + 8) (by omega)]
  simp_arith [pure, Except.pure]

/-- Shape of a failing decode: when fewer than one record length remains at
the offset, the decode fails at the first field read that cannot be
satisfied, reporting the offset reached after the preceding fields. -/
theorem parse_at_short_char (e : Endian) (c : Class) (off : Nat) (d : List Nat)
    (hshort : d.length < off + recordLength c) :
    ∃ k, k < 10 ∧
      (∀ j, j < k → off + ((fieldWidths c).take (j + 1)).sum ≤ d.length) ∧
      d.length < off + ((fieldWidths c).take (k + 1)).sum ∧
      SectionHeader.parse_at e c off d =
        .error (.BadOffset (off + ((fieldWidths c).take k).sum)) := by
  have p : ∀ o : Nat, o + 4 ≤ d.length →
      parse_u32_at e o d = .ok (u32val e o d, o + 4) := by
    intro o ho; unfold parse_u32_at; rw [if_pos ho]
  have q : ∀ o : Nat, o + 8 ≤ d.length →
      parse_u64_at e o d = .ok (u64val e o d, o + 8) := by
    intro o ho; unfold parse_u64_at; rw [if_pos ho]
  have pf : ∀ o : Nat, d.length < o + 4 →
      parse_u32_at e o d = .error (.BadOffset o) := by
    intro o ho; unfold parse_u32_at; rw [if_neg (by omega)]
  have qf : ∀ o : Nat, d.length < o + 8 →
      parse_u64_at e o d = .error (.BadOffset o) := by
    intro o ho; unfold parse_u64_at; rw [if_neg (by omega)]
  cases c with
  | ELF32 =>
    simp only [recordLength, fieldWidths] at hshort
    norm_num at hshort
    rcases Nat.lt_or_ge d.length (off + 4) with h1 | h1
    · refine ⟨0, by norm_num, fun j hj => absurd hj (Nat.not_lt_zero j),
        by simpa [fieldWidths] using h1, ?_⟩
      simp only [SectionHeader.parse_at, bind, Except.bind, pf off (by omega)]
      simp [fieldWidths]
    rcases Nat.lt_or_ge d.length (off + 8) with h2 | h2
    · refine ⟨1, by norm_num, ?_, by simpa [fieldWidths] using h2, ?_⟩
      · intro j hj; interval_cases j <;> simpa [fieldWidths] using h1
      · simp only [SectionHeader.parse_at, bind, Except.bind,
          p off (by omega), pf (off + 4) (by omega)]
        simp_arith [fieldWidths]
    rcases Nat.lt_or_ge d.length (off + 12) with h3 | h3
    · refine ⟨2, by norm_num, ?_, by simpa [fieldWidths] using h3, ?_⟩
      · intro j hj; interval_cases j <;> simp [fieldWidths] <;> omega
      · simp only [SectionHeader.parse_at, bind, Except.bind,
          p off (by omega), p (off + 4) (by omega), pf (off + 4 + 4) (by omega)]
        simp_arith [fieldWidths]
    rcases Nat.lt_or_ge d.length (off + 16) with h4 | h4
    · refine ⟨3, by norm_num, ?_, by simpa [fieldWidths] using h4, ?_⟩
      · intro j hj; interval_cases j <;> simp [fieldWidths] <;> omega
      · simp only [SectionHeader.parse_at, bind, Except.bind,
          p off (by omega), p (off + 4) (by omega), p (off + 4 + 4) (by omega),
          pf (off + 4 + 4 + 4) (by omega)]
        simp_arith [fieldWidths]
    rcases Nat.lt_or_ge d.length (off + 20) with h5 | h5
    · refine ⟨4, by norm_num, ?_, by simpa [fieldWidths] using h5, ?_⟩
      · intro j hj; interval_cases j <;> simp [fieldWidths] <;> omega
      · simp only [SectionHeader.parse_at, bind, Except.bind,
          p off (by omega), p (off + 4) (by omega), p (off + 4 + 4) (by omega),
          p (off + 4 + 4 + 4) (by omega), pf (off + 4 + 4 + 4 + 4) (by omega)]
        simp_arith [fieldWidths]
    rcases Nat.lt_or_ge d.length (off + 24) with h6 | h6
    · refine ⟨5, by norm_num, ?_, by simpa [fieldWidths] using h6, ?_⟩
      · intro j hj; interval_cases j <;> simp [fieldWidths] <;> omega
      · simp only [SectionHeader.parse_at, bind, Except.bind,
          p off (by omega), p (off + 4) (by omega), p (off + 4 + 4) (by omega),
          p (off + 4 + 4 + 4) (by omega), p (off + 4 + 4 + 4 + 4) (by omega),
          pf (off + 4 + 4 + 4 + 4 + 4) (by omega)]
        simp_arith [fieldWidths]
    rcases Nat.lt_or_ge d.length (off + 28) with h7 | h7
    · refine ⟨6, by norm_num, ?_, by simpa [fieldWidths] using h7, ?_⟩
      · intro j hj; interval_cases j <;> simp [fieldWidths] <;> omega
      · simp only [SectionHeader.parse_at, bind, Except.bind,
          p off (by omega), p (off + 4) (by omega), p (off + 4 + 4) (by omega),
          p (off + 4 + 4 + 4) (by omega), p (off + 4 + 4 + 4 + 4) (by omega),
          p (off + 4 + 4 + 4 + 4 + 4) (by omega),
          pf (off + 4 + 4 + 4 + 4 + 4 + 4) (by omega)]
        simp_arith [fieldWidths]
    rcases Nat.lt_or_ge d.length (off + 32) with h8 | h8
    · refine ⟨7, by norm_num, ?_, by simpa [fieldWidths] using h8, ?_⟩
      · intro j hj; interval_cases j <;> simp [fieldWidths] <;> omega
      · simp only [SectionHeader.parse_at, bind, Except.bind,
          p off (by omega), p (off + 4) (by omega), p (off + 4 + 4) (by omega),
          p (off + 4 + 4 + 4) (by omega), p (off + 4 + 4 + 4 + 4) (by omega),
          p (off + 4 + 4 + 4 + 4 + 4) (by omega),
          p (off + 4 + 4 + 4 + 4 + 4 + 4) (by omega),
          pf (off + 4 + 4 + 4 + 4 + 4 + 4 + 4) (by omega)]
        simp_arith [fieldWidths]
    rcases Nat.lt_or_ge d.length (off + 36) with h9 | h9
    · refine ⟨8, by norm_num, ?_, by simpa [fieldWidths] using h9, ?_⟩
      · intro j hj; interval_cases j <;> simp [fieldWidths] <;> omega
      · simp only [SectionHeader.parse_at, bind, Except.bind,
          p off (by omega), p (off + 4) (by omega), p (off + 4 + 4) (by omega),
          p (off + 4 + 4 + 4) (by omega), p (off + 4 + 4 + 4 + 4) (by omega),
          p (off + 4 + 4 + 4 + 4 + 4) (by omega),
          p (off + 4 + 4 + 4 + 4 + 4 + 4) (by omega),
          p (off + 4 + 4 + 4 + 4 + 4 + 4 + 4) (by omega),
          pf (off + 4 + 4 + 4 + 4 + 4 + 4 + 4 + 4) (by omega)]
        simp_arith [fieldWidths]
    · refine ⟨9, by norm_num, ?_, by simpa [fieldWidths] using hshort, ?_⟩
      · intro j hj; interval_cases j <;> simp [fieldWidths] <;> omega
      · simp only [SectionHeader.parse_at, bind, Except.bind,
          p off (by omega), p (off + 4) (by omega), p (off + 4 + 4) (by omega),
          p (off + 4 + 4 + 4) (by omega), p (off + 4 + 4 + 4 + 4) (by omega),
          p (off + 4 + 4 + 4 + 4 + 4) (by omega),
          p (off + 4 + 4 + 4 + 4 + 4 + 4) (by omega),
          p (off + 4 + 4 + 4 + 4 + 4 + 4 + 4) (by omega),
          p (off + 4 + 4 + 4 + 4 + 4 + 4 + 4 + 4) (by omega),
          pf (off + 4 + 4 + 4 + 4 + 4 + 4 + 4 + 4 + 4) (by omega)]
        simp_arith [fieldWidths]
  | ELF64 =>
    simp only [recordLength, fieldWidths] at hshort
    norm_num at hshort
    rcases Nat.lt_or_ge d.length (off + 4) with h1 | h1
    · refine ⟨0, by norm_num, fun j hj => absurd hj (Nat.not_lt_zero j),
        by simpa [fieldWidths] using h1, ?_⟩
      simp only [SectionHeader.parse_at, bind, Except.bind, pf off (by omega)]
      simp [fieldWidths]
    rcases Nat.lt_or_ge d.length (off + 8) with h2 | h2
    · refine ⟨1, by norm_num, ?_, by simpa [fieldWidths] using h2, ?_⟩
      · intro j hj; interval_cases j <;> simpa [fieldWidths] using h1
      · simp only [SectionHeader.parse_at, bind, Except.bind,
          p off (by omega), pf (off + 4) (by omega)]
        simp_arith [fieldWidths]
    rcases Nat.lt_or_ge d.length (off + 16) with h3 | h3
    · refine ⟨2, by norm_num, ?_, by simpa [fieldWidths] using h3, ?_⟩
      · intro j hj; interval_cases j <;> simp [fieldWidths] <;> omega
      · simp only [SectionHeader.parse_at, bind, Except.bind,
          p off (by omega), p (off + 4) (by omega), qf (off + 4 + 4) (by omega)]
        simp_arith [fieldWidths]
    rcases Nat.lt_or_ge d.length (off + 24) with h4 | h4
    · refine ⟨3, by norm_num, ?_, by simpa [fieldWidths] using h4, ?_⟩
      · intro j hj; interval_cases j <;> simp [fieldWidths] <;> omega
      · simp only [SectionHeader.parse_at, bind, Except.bind,
          p off (by omega), p (off + 4) (by omega), q (off + 4 + 4) (by omega),
          qf (off + 4 + 4 + 8) (by omega)]
        simp_arith [fieldWidths]
    rcases Nat.lt_or_ge d.length (off + 32) with h5 | h5
    · refine ⟨4, by norm_num, ?_, by simpa [fieldWidths] using h5, ?_⟩
      · intro j hj; interval_cases j <;> simp [fieldWidths] <;> omega
      · simp only [SectionHeader.parse_at, bind, Except.bind,
          p off (by omega), p (off + 4) (by omega), q (off + 4 + 4) (by omega),
          q (off + 4 + 4 + 8) (by omega), qf (off + 4 + 4 + 8 + 8) (by omega)]
        simp_arith [fieldWidths]
    rcases Nat.lt_or_ge d.length (off + 40) with h6 | h6
    · refine ⟨5, by norm_num, ?_, by simpa [fieldWidths] using h6, ?_⟩
      · intro j hj; interval_cases j <;> simp [fieldWidths] <;> omega
      · simp only [SectionHeader.parse_at, bind, Except.bind,
          p off (by omega), p (off + 4) (by omega), q (off + 4 + 4) (by omega),
          q (off + 4 + 4 + 8) (by omega), q (off + 4 + 4 + 8 + 8) (by omega),
          qf (off + 4 + 4 + 8 + 8 + 8) (by omega)]
        simp_arith [fieldWidths]
    rcases Nat.lt_or_ge d.length (off + 44) with h7 | h7
    · refine ⟨6, by norm_num, ?_, by simpa [fieldWidths] using h7, ?_⟩
      · intro j hj; interval_cases j <;> simp [fieldWidths] <;> omega
      · simp only [SectionHeader.parse_at, bind, Except.bind,
          p off (by omega), p (off + 4) (by omega), q (off + 4 + 4) (by omega),
          q (off + 4 + 4 + 8) (by omega), q (off + 4 + 4 + 8 + 8) (by omega),
          q (off + 4 + 4 + 8 + 8 + 8) (by omega),
          pf (off + 4 + 4 + 8 + 8 + 8 + 8) (by omega)]
        simp_arith [fieldWidths]
    rcases Nat.lt_or_ge d.length (off + 48) with h8 | h8
    · refine ⟨7, by norm_num, ?_, by simpa [fieldWidths] using h8, ?_⟩
      · intro j hj; interval_cases j <;> simp [fieldWidths] <;> omega
      · simp only [SectionHeader.parse_at, bind, Except.bind,
          p off (by omega), p (off + 4) (by omega), q (off + 4 + 4) (by omega),
          q (off + 4 + 4 + 8) (by omega), q (off + 4 + 4 + 8 + 8) (by omega),
          q (off + 4 + 4 + 8 + 8 + 8) (by omega),
          p (off + 4 + 4 + 8 + 8 + 8 + 8) (by omega),
          pf (off + 4 + 4 + 8 + 8 + 8 + 8 + 4) (by omega)]
        simp_arith [fieldWidths]
    rcases Nat.lt_or_ge d.length (off + 56) with h9 | h9
    · refine ⟨8, by norm_num, ?_, by simpa [fieldWidths] using h9, ?_⟩
      · intro j hj; interval_cases j <;> simp [fieldWidths] <;> omega
      · simp only [SectionHeader.parse_at, bind, Except.bind,
          p off (by omega), p (off + 4) (by omega), q (off + 4 + 4) (by omega),
          q (off + 4 + 4 + 8) (by omega), q (off + 4 + 4 + 8 + 8) (by omega),
          q (off + 4 + 4 + 8 + 8 + 8) (by omega),
          p (off + 4 + 4 + 8 + 8 + 8 + 8) (by omega),
          p (off + 4 + 4 + 8 + 8 + 8 + 8 + 4) (by omega),
          qf (off + 4 + 4 + 8 + 8 + 8 + 8 + 4 + 4) (by omega)]
        simp_arith [fieldWidths]
    · refine ⟨9, by norm_num, ?_, by simpa [fieldWidths] using hshort, ?_⟩
      · intro j hj; interval_cases j <;> simp [fieldWidths] <;> omega
      · simp only [SectionHeader.parse_at, bind, Except.bind,
          p off (by omega), p (off + 4) (by omega), q (off + 4 + 4) (by omega),
          q (off + 4 + 4 + 8) (by omega), q (off + 4 + 4 + 8 + 8) (by omega),
          q (off + 4 + 4 + 8 + 8 + 8) (by omega),
          p (off + 4 + 4 + 8 + 8 + 8 + 8) (by omega),
          p (off + 4 + 4 + 8 + 8 + 8 + 8 + 4) (by omega),
          q (off + 4 + 4 + 8 + 8 + 8 + 8 + 4 + 4) (by omega),
          qf (off + 4 + 4 + 8 + 8 + 8 + 8 + 4 + 4 + 8) (by omega)]
        simp_arith [fieldWidths]

/-- Successful decode exists exactly when one record length remains. -/
theorem parse_at_ok_of_le (e : Endian) (c : Class) (off : Nat) (d : List Nat)
    (h : off + recordLength c ≤ d.length) :
    ∃ rec, SectionHeader.parse_at e c off d = .ok (rec, off + recordLength c) := by
  cases c with
  | ELF32 =>
    have h40 : off + 40 ≤ d.length := by
      simpa [recordLength, fieldWidths] using h
    norm_num [recordLength, fieldWidths]
    exact ⟨_, parse_at_elf32_of_le e off d h40⟩
  | ELF64 =>
    have h64 : off + 64 ≤ d.length := by
      simpa [recordLength, fieldWidths] using h
    norm_num [recordLength, fieldWidths]
    exact ⟨_, parse_at_elf64_of_le e off d h64⟩

/-- Lazy sequence of section headers over one buffer.
Modelled from the spec: the Header Sequence holds the buffer, endianness,
class and a cursor starting at zero; each step ends the sequence when fewer
bytes remain than one record length, and otherwise decodes at the cursor
and then sets the cursor to its old value plus the record length for the
class, reporting a decode error as an item instead of stopping silently. -/
structure ParsingIterator where
  endian : Endian
  cls : Class
  data : List Nat
  offset : Nat
deriving DecidableEq, Repr

/-- Construction of the sequence (`SectionHeaderIterator::new`).
Modelled from the spec: the cursor starts at zero. -/
def ParsingIterator.new (e : Endian) (c : Class) (d : List Nat) :
    ParsingIterator :=
  ⟨e, c, d, 0⟩

/-- Iterator specialised to section headers (the source's type alias
`SectionHeaderIterator`). -/
abbrev SectionHeaderIterator := ParsingIterator

/-- One production step of the sequence.
Modelled from the spec: graceful exhaustion when less than one record
length remains, otherwise a decode at the cursor followed by a constant
cursor stride of one record length. -/
def ParsingIterator.next (it : ParsingIterator) :
    Option (Except ParseError SectionHeader) × ParsingIterator :=
  if it.data.length - it.offset < recordLength it.cls then
    (none, it)
  else
    match SectionHeader.parse_at it.endian it.cls it.offset it.data with
    | .ok (h, _) =>
        (some (.ok h), { it with offset := it.offset + recordLength it.cls })
    | .error err =>
        (some (.error err), { it with offset := it.offset + recordLength it.cls })

/-- All items the sequence produces, driven for `fuel` steps (enough fuel
makes this every item, since each step consumes one record length). -/
def ParsingIterator.collect : Nat → ParsingIterator → List (Except ParseError SectionHeader)
  | 0, _ => []
  | fuel + 1, it =>
      match it.next with
      | (none, _) => []
      | (some item, it2) => item :: ParsingIterator.collect fuel it2

/-- Driving the sequence over a buffer of `N` whole records and a partial
tail of `r` bytes yields exactly `N` items, all successful decodes. -/
theorem collect_spec (e : Endian) (c : Class) (d : List Nat) :
    ∀ N off fuel r, d.length = off + (N * recordLength c + r) →
      r < recordLength c → N ≤ fuel →
      (ParsingIterator.collect fuel ⟨e, c, d, off⟩).length = N ∧
      ∀ x ∈ ParsingIterator.collect fuel ⟨e, c, d, off⟩, ∃ rec, x = Except.ok rec := by
  intro N
  induction N with
  | zero =>
    intro off fuel r hlen hr hf
    simp only [Nat.zero_mul, Nat.zero_add] at hlen
    have hnext : ParsingIterator.next ⟨e, c, d, off⟩ = (none, ⟨e, c, d, off⟩) := by
      unfold ParsingIterator.next
      rw [if_pos]
      show d.length - off < recordLength c
      omega
    cases fuel with
    | zero => simp [ParsingIterator.collect]
    | succ f => simp [ParsingIterator.collect, hnext]
  | succ n ih =>
    intro off fuel r hlen hr hf
    cases fuel with
    | zero => omega
    | succ f =>
      have hsm : (n + 1) * recordLength c = n * recordLength c + recordLength c :=
        Nat.succ_mul n _
      have hle : off + recordLength c ≤ d.length := by omega
      obtain ⟨rec, hok⟩ := parse_at_ok_of_le e c off d hle
      have hnext : ParsingIterator.next ⟨e, c, d, off⟩ =
          (some (.ok rec), ⟨e, c, d, off + recordLength c⟩) := by
        unfold ParsingIterator.next
        rw [if_neg]
        · simp only [hok]
        · show ¬(d.length - off < recordLength c)
          omega
      have hlen2 : d.length = (off + recordLength c) + (n * recordLength c + r) := by
        omega
      obtain ⟨ihlen, ihok⟩ := ih (off + recordLength c) f r hlen2 hr (by omega)
      constructor
      · simp [ParsingIterator.collect, hnext, ihlen]
      · intro x hx
        simp only [ParsingIterator.collect, hnext] at hx
        rcases List.mem_cons.mp hx with rfl | hx2
        · exact ⟨rec, rfl⟩
        · exact ihok x hx2

/-- Equality of a type code with a raw `u32`
(`impl PartialEq<u32> for SectionType`): compares the wrapped value. -/
def SectionType.eqU32 (s : SectionType) (other : Nat) : Bool :=
  s.val == other

/-- Equality of a raw `u32` with a type code.
Modelled from the spec: equality between a Type Code and its raw integer
value holds in both directions; the reverse-direction comparison is not in
the given source file. -/
def u32EqSectionType (other : Nat) (s : SectionType) : Bool :=
  other == s.val

namespace gabi

/-- Known section type codes.
Modelled from the spec: the fixed table of standard and vendor-extension
codes lives in the external `gabi` constants module; the values are the
ELF generic ABI ones the names denote. -/
def SHT_NULL : Nat := 0

/-- Program-bits section type code, see `SHT_NULL`. -/
def SHT_PROGBITS : Nat := 1

/-- Symbol-table section type code, see `SHT_NULL`. -/
def SHT_SYMTAB : Nat := 2

/-- String-table section type code, see `SHT_NULL`. -/
def SHT_STRTAB : Nat := 3

/-- Relocation-with-addends section type code, see `SHT_NULL`. -/
def SHT_RELA : Nat := 4

/-- Hash-table section type code, see `SHT_NULL`. -/
def SHT_HASH : Nat := 5

/-- Dynamic-linking section type code, see `SHT_NULL`. -/
def SHT_DYNAMIC : Nat := 6

/-- Note section type code, see `SHT_NULL`. -/
def SHT_NOTE : Nat := 7

/-- No-bits section type code, see `SHT_NULL`. -/
def SHT_NOBITS : Nat := 8

/-- Relocation section type code, see `SHT_NULL`. -/
def SHT_REL : Nat := 9

/-- Reserved shared-library section type code, see `SHT_NULL`. -/
def SHT_SHLIB : Nat := 10

/-- Dynamic-symbol-table section type code, see `SHT_NULL`. -/
def SHT_DYNSYM : Nat := 11

/-- Initialisation-array section type code, see `SHT_NULL`. -/
def SHT_INIT_ARRAY : Nat := 14

/-- Finalisation-array section type code, see `SHT_NULL`. -/
def SHT_FINI_ARRAY : Nat := 15

/-- Pre-initialisation-array section type code, see `SHT_NULL`. -/
def SHT_PREINIT_ARRAY : Nat := 16

/-- Group section type code, see `SHT_NULL`. -/
def SHT_GROUP : Nat := 17

/-- Extended-index section type code, see `SHT_NULL`. -/
def SHT_SYMTAB_SHNDX : Nat := 18

/-- Number of defined standard types, see `SHT_NULL`. -/
def SHT_NUM : Nat := 19

/-- GNU attributes section type code, see `SHT_NULL`. -/
def SHT_GNU_ATTRIBUTES : Nat := 0x6ffffff5

/-- GNU hash section type code, see `SHT_NULL`. -/
def SHT_GNU_HASH : Nat := 0x6ffffff6

/-- GNU library-list section type code, see `SHT_NULL`. -/
def SHT_GNU_LIBLIST : Nat := 0x6ffffff7

/-- GNU version-definition section type code, see `SHT_NULL`. -/
def SHT_GNU_VERDEF : Nat := 0x6ffffffd

/-- GNU version-needs section type code, see `SHT_NULL`. -/
def SHT_GNU_VERNEED : Nat := 0x6ffffffe

/-- GNU version-symbol section type code, see `SHT_NULL`. -/
def SHT_GNU_VERSYM : Nat := 0x6fffffff

end gabi

/-- Symbolic name of a type code (`impl Display for SectionType`): an
exact-match lookup over the known codes, any other code showing as
"Unknown". -/
def SectionType.display (s : SectionType) : String :=
  if s.val = gabi.SHT_NULL then "SHT_NULL"
  else if s.val = gabi.SHT_PROGBITS then "SHT_PROGBITS"
  else if s.val = gabi.SHT_SYMTAB then "SHT_SYMTAB"
  else if s.val = gabi.SHT_STRTAB then "SHT_STRTAB"
  else if s.val = gabi.SHT_RELA then "SHT_RELA"
  else if s.val = gabi.SHT_HASH then "SHT_HASH"
  else if s.val = gabi.SHT_DYNAMIC then "SHT_DYNAMIC"
  else if s.val = gabi.SHT_NOTE then "SHT_NOTE"
  else if s.val = gabi.SHT_NOBITS then "SHT_NOBITS"
  else if s.val = gabi.SHT_REL then "SHT_REL"
  else if s.val = gabi.SHT_SHLIB then "SHT_SHLIB"
  else if s.val = gabi.SHT_DYNSYM then "SHT_DYNSYM"
  else if s.val = gabi.SHT_INIT_ARRAY then "SHT_INIT_ARRAY"
  else if s.val = gabi.SHT_FINI_ARRAY then "SHT_FINI_ARRAY"
  else if s.val = gabi.SHT_PREINIT_ARRAY then "SHT_PREINIT_ARRAY"
  else if s.val = gabi.SHT_GROUP then "SHT_GROUP"
  else if s.val = gabi.SHT_SYMTAB_SHNDX then "SHT_SYMTAB_SHNDX"
  else if s.val = gabi.SHT_NUM then "SHT_NUM"
  else if s.val = gabi.SHT_GNU_ATTRIBUTES then "SHT_GNU_ATTRIBUTES"
  else if s.val = gabi.SHT_GNU_HASH then "SHT_GNU_HASH"
  else if s.val = gabi.SHT_GNU_LIBLIST then "SHT_GNU_LIBLIST"
  else if s.val = gabi.SHT_GNU_VERDEF then "SHT_GNU_VERDEF"
  else if s.val = gabi.SHT_GNU_VERNEED then "SHT_GNU_VERNEED"
  else if s.val = gabi.SHT_GNU_VERSYM then "SHT_GNU_VERSYM"
  else "Unknown"

/-- Codes carrying a symbolic name in the display table: the match arms of
the type-code display, in their source order. -/
def knownCodes : List Nat :=
  [gabi.SHT_NULL, gabi.SHT_PROGBITS, gabi.SHT_SYMTAB, gabi.SHT_STRTAB,
   gabi.SHT_RELA, gabi.SHT_HASH, gabi.SHT_DYNAMIC, gabi.SHT_NOTE,
   gabi.SHT_NOBITS, gabi.SHT_REL, gabi.SHT_SHLIB, gabi.SHT_DYNSYM,
   gabi.SHT_INIT_ARRAY, gabi.SHT_FINI_ARRAY, gabi.SHT_PREINIT_ARRAY,
   gabi.SHT_GROUP, gabi.SHT_SYMTAB_SHNDX, gabi.SHT_NUM,
   gabi.SHT_GNU_ATTRIBUTES, gabi.SHT_GNU_HASH, gabi.SHT_GNU_LIBLIST,
   gabi.SHT_GNU_VERDEF, gabi.SHT_GNU_VERNEED, gabi.SHT_GNU_VERSYM]

/-- Lowercase hexadecimal digit for a value below 16, as Rust's hex
formatting writes it. -/
def hexDigitChar (n : Nat) : Char :=
  if n < 10 then Char.ofNat (48 + n) else Char.ofNat (87 + n)

/-- Minimal-width hexadecimal digit string of a number, most significant
digit first; `fuel` bounds the recursion and is enough whenever the number
is below `16 ^ fuel` (with at least one digit for zero). -/
def hexDigitsAux : Nat → Nat → List Char
  | 0, _ => []
  | fuel + 1, n =>
      if n < 16 then [hexDigitChar n]
      else hexDigitsAux fuel (n / 16) ++ [hexDigitChar (n % 16)]

/-- Display of a flags value (`impl Display for SectionFlag`, which
formats with the alternate lowercase hex specifier): a `0x` prefix
followed by the minimal lowercase hexadecimal digits of the wrapped
64-bit value (16 digits suffice for any `u64`). -/
def SectionFlag.display (f : SectionFlag) : String :=
  ⟨'0' :: 'x' :: hexDigitsAux 16 f.val⟩

/-- Numeric value of a lowercase hexadecimal digit character (inverse of
`hexDigitChar` on digits). -/
def hexVal (ch : Char) : Nat :=
  if ch.toNat ≤ 57 then ch.toNat - 48 else ch.toNat - 87

/-- Number denoted by a big-endian list of hexadecimal digit characters. -/
def hexListVal (l : List Char) : Nat :=
  l.foldl (fun a ch => a * 16 + hexVal ch) 0

/-- Whether a character is a lowercase hexadecimal digit. -/
def isLowerHexDigit (ch : Char) : Bool :=
  (48 ≤ ch.toNat && ch.toNat ≤ 57) || (97 ≤ ch.toNat && ch.toNat ≤ 102)

/-- Digit characters round-trip through their numeric value. -/
theorem hexVal_hexDigitChar (n : Nat) (h : n < 16) :
    hexVal (hexDigitChar n) = n := by
  interval_cases n <;> rfl

/-- Digit characters are lowercase hexadecimal digits. -/
theorem isLowerHexDigit_hexDigitChar (n : Nat) (h : n < 16) :
    isLowerHexDigit (hexDigitChar n) = true := by
  interval_cases n <;> rfl

/-- Appending one digit multiplies the denoted value by 16 and adds it. -/
theorem hexListVal_append (l : List Char) (ch : Char) :
    hexListVal (l ++ [ch]) = hexListVal l * 16 + hexVal ch := by
  unfold hexListVal
  rw [List.foldl_append]
  rfl

/-- Digit strings produced with enough fuel denote the encoded number and
consist of lowercase hexadecimal digits. -/
theorem hexDigitsAux_spec :
    ∀ fuel n, 0 < fuel → n < 16 ^ fuel →
      hexListVal (hexDigitsAux fuel n) = n ∧
      ∀ ch ∈ hexDigitsAux fuel n, isLowerHexDigit ch = true := by
  intro fuel
  induction fuel with
  | zero => intro n h0; omega
  | succ f ih =>
    intro n _ hn
    by_cases hsmall : n < 16
    · constructor
      · simp [hexDigitsAux, hsmall, hexListVal, hexVal_hexDigitChar n hsmall]
      · intro ch hch
        simp only [hexDigitsAux, if_pos hsmall, List.mem_singleton] at hch
        subst hch
        exact isLowerHexDigit_hexDigitChar n hsmall
    · have hf : 0 < f := by
        rcases Nat.eq_zero_or_pos f with rfl | hf
        · norm_num at hn; omega
        · exact hf
      have hdiv : n / 16 < 16 ^ f := by
        rw [Nat.div_lt_iff_lt_mul (by norm_num)]
        calc n < 16 ^ (f + 1) := hn
        _ = 16 ^ f * 16 := by rw [pow_succ]
      obtain ⟨ihval, ihdig⟩ := ih (n / 16) hf hdiv
      constructor
      · rw [show hexDigitsAux (f + 1) n =
            hexDigitsAux f (n / 16) ++ [hexDigitChar (n % 16)] by
              simp [hexDigitsAux, hsmall]]
        rw [hexListVal_append, ihval, hexVal_hexDigitChar (n % 16) (by omega)]
        omega
      · intro ch hch
        rw [show hexDigitsAux (f + 1) n =
            hexDigitsAux f (n / 16) ++ [hexDigitChar (n % 16)] by
              simp [hexDigitsAux, hsmall]] at hch
        rcases List.mem_append.mp hch with h1 | h1
        · exact ihdig ch h1
        · rw [List.mem_singleton.mp h1]
          exact isLowerHexDigit_hexDigitChar (n % 16) (by omega)

/-- Bytes are below 256. -/
theorem byteAt_lt (d : List Nat) (i : Nat) : byteAt d i < 256 :=
  Nat.mod_lt _ (by norm_num)

/-- Values assembled from 4 bytes are below `2 ^ 32`. -/
theorem u32val_lt (e : Endian) (o : Nat) (d : List Nat) :
    u32val e o d < 2 ^ 32 := by
  have b0 := byteAt_lt d o
  have b1 := byteAt_lt d (o + 1)
  have b2 := byteAt_lt d (o + 2)
  have b3 := byteAt_lt d (o + 3)
  cases e <;> simp only [u32val] <;> norm_num <;> omega

/-- Values assembled from 8 bytes are below `2 ^ 64`. -/
theorem u64val_lt (e : Endian) (o : Nat) (d : List Nat) :
    u64val e o d < 2 ^ 64 := by
  have b0 := byteAt_lt d o
  have b1 := byteAt_lt d (o + 1)
  have b2 := byteAt_lt d (o + 2)
  have b3 := byteAt_lt d (o + 3)
  have b4 := byteAt_lt d (o + 4)
  have b5 := byteAt_lt d (o + 5)
  have b6 := byteAt_lt d (o + 6)
  have b7 := byteAt_lt d (o + 7)
  cases e <;> simp only [u64val] <;> norm_num <;> omega

/-- A 4-byte read only depends on the 4 bytes it covers. -/
theorem u32val_congr (e : Endian) (d1 d2 : List Nat) (o : Nat)
    (h : ∀ j, j < 4 → byteAt d1 (o + j) = byteAt d2 (o + j)) :
    u32val e o d1 = u32val e o d2 := by
  have h0 : byteAt d1 o = byteAt d2 o := by simpa using h 0 (by norm_num)
  have h1 := h 1 (by norm_num)
  have h2 := h 2 (by norm_num)
  have h3 := h 3 (by norm_num)
  cases e <;> simp only [u32val] <;> rw [h0, h1, h2, h3]

/-- An 8-byte read only depends on the 8 bytes it covers. -/
theorem u64val_congr (e : Endian) (d1 d2 : List Nat) (o : Nat)
    (h : ∀ j, j < 8 → byteAt d1 (o + j) = byteAt d2 (o + j)) :
    u64val e o d1 = u64val e o d2 := by
  have h0 : byteAt d1 o = byteAt d2 o := by simpa using h 0 (by norm_num)
  have h1 := h 1 (by norm_num)
  have h2 := h 2 (by norm_num)
  have h3 := h 3 (by norm_num)
  have h4 := h 4 (by norm_num)
  have h5 := h 5 (by norm_num)
  have h6 := h 6 (by norm_num)
  have h7 := h 7 (by norm_num)
  cases e <;> simp only [u64val] <;> rw [h0, h1, h2, h3, h4, h5, h6, h7]

/-- C1: decoding reproduces the golden vectors exactly; over a buffer of
strictly increasing byte values, the little-endian 32-bit decode at
offsets 0 and 40 and the big-endian 64-bit decode at offsets 0 and 64
yield the stated records. -/
theorem c1_golden_vectors :
    SectionHeader.parse_at .Little .ELF32 0 (List.range 80) =
      .ok ({ sh_name := 0x03020100, sh_type := ⟨0x07060504⟩,
             sh_flags := ⟨0x0B0A0908⟩, sh_addr := 0x0F0E0D0C,
             sh_offset := 0x13121110, sh_size := 0x17161514,
             sh_link := 0x1B1A1918, sh_info := 0x1F1E1D1C,
             sh_addralign := 0x23222120, sh_entsize := 0x27262524 }, 40) ∧
    SectionHeader.parse_at .Little .ELF32 40 (List.range 80) =
      .ok ({ sh_name := 0x2B2A2928, sh_type := ⟨0x2F2E2D2C⟩,
             sh_flags := ⟨0x33323130⟩, sh_addr := 0x37363534,
             sh_offset := 0x3B3A3938, sh_size := 0x3F3E3D3C,
             sh_link := 0x43424140, sh_info := 0x47464544,
             sh_addralign := 0x4B4A4948, sh_entsize := 0x4F4E4D4C }, 80) ∧
    SectionHeader.parse_at .Big .ELF64 0 (List.range 128) =
      .ok ({ sh_name := 0x00010203, sh_type := ⟨0x04050607⟩,
             sh_flags := ⟨0x08090A0B0C0D0E0F⟩, sh_addr := 0x1011121314151617,
             sh_offset := 0x18191A1B1C1D1E1F, sh_size := 0x2021222324252627,
             sh_link := 0x28292A2B, sh_info := 0x2C2D2E2F,
             sh_addralign := 0x3031323334353637,
             sh_entsize := 0x38393A3B3C3D3E3F }, 64) ∧
    SectionHeader.parse_at .Big .ELF64 64 (List.range 128) =
      .ok ({ sh_name := 0x40414243, sh_type := ⟨0x44454647⟩,
             sh_flags := ⟨0x48494A4B4C4D4E4F⟩, sh_addr := 0x5051525354555657,
             sh_offset := 0x58595A5B5C5D5E5F, sh_size := 0x6061626364656667,
             sh_link := 0x68696A6B, sh_info := 0x6C6D6E6F,
             sh_addralign := 0x7071727374757677,
             sh_entsize := 0x78797A7B7C7D7E7F }, 128) :=
  ⟨rfl, rfl, rfl, rfl⟩

/-- C2: a decode fails exactly when fewer than one record length (40 bytes
for the 32-bit class, 64 for the 64-bit class) remains at the offset, and
the insufficient-bytes error is the only error kind it can return. -/
theorem c2_error_iff_insufficient :
    recordLength .ELF32 = 40 ∧ recordLength .ELF64 = 64 ∧
    ∀ e c off d,
      ((∃ err, SectionHeader.parse_at e c off d = .error err) ↔
        d.length < off + recordLength c) ∧
      ∀ err, SectionHeader.parse_at e c off d = .error err →
        ∃ o, err = .BadOffset o := by
  refine ⟨by decide, by decide, ?_⟩
  intro e c off d
  constructor
  · constructor
    · rintro ⟨err, herr⟩
      by_contra hge
      push_neg at hge
      obtain ⟨rec, hok⟩ := parse_at_ok_of_le e c off d hge
      rw [hok] at herr
      exact absurd herr (by simp)
    · intro hshort
      obtain ⟨k, -, -, -, heq⟩ := parse_at_short_char e c off d hshort
      exact ⟨_, heq⟩
  · intro err _
    cases err
    exact ⟨_, rfl⟩

/-- C3: a successful 32-bit-class decode widens flags, address, offset,
size, alignment and entry size by zero-extension (each equals the 32-bit
value read on disk and is below `2 ^ 32`), and name, type, link and info
are 32-bit reads under both classes. -/
theorem c3_widening :
    ∀ e off d rec off2,
      (SectionHeader.parse_at e .ELF32 off d = .ok (rec, off2) →
        rec.sh_flags.val = u32val e (off + 8) d ∧
        rec.sh_addr = u32val e (off + 12) d ∧
        rec.sh_offset = u32val e (off + 16) d ∧
        rec.sh_size = u32val e (off + 20) d ∧
        rec.sh_addralign = u32val e (off + 32) d ∧
        rec.sh_entsize = u32val e (off + 36) d ∧
        rec.sh_flags.val < 2 ^ 32 ∧ rec.sh_addr < 2 ^ 32 ∧
        rec.sh_offset < 2 ^ 32 ∧ rec.sh_size < 2 ^ 32 ∧
        rec.sh_addralign < 2 ^ 32 ∧ rec.sh_entsize < 2 ^ 32) ∧
      (∀ c, SectionHeader.parse_at e c off d = .ok (rec, off2) →
        rec.sh_name = u32val e off d ∧
        rec.sh_type.val = u32val e (off + 4) d ∧
        rec.sh_name < 2 ^ 32 ∧ rec.sh_type.val < 2 ^ 32 ∧
        rec.sh_link < 2 ^ 32 ∧ rec.sh_info < 2 ^ 32 ∧
        (c = .ELF32 → rec.sh_link = u32val e (off + 24) d ∧
          rec.sh_info = u32val e (off + 28) d) ∧
        (c = .ELF64 → rec.sh_link = u32val e (off + 40) d ∧
          rec.sh_info = u32val e (off + 44) d)) := by
  intro e off d rec off2
  constructor
  · intro h
    have hle : off + 40 ≤ d.length := by
      by_contra hlt
      push_neg at hlt
      obtain ⟨k, -, -, -, heq⟩ := parse_at_short_char e .ELF32 off d
        (by norm_num [recordLength, fieldWidths]; omega)
      rw [heq] at h
      exact absurd h (by simp)
    rw [parse_at_elf32_of_le e off d hle] at h
    simp only [Except.ok.injEq, Prod.mk.injEq] at h
    obtain ⟨hrec, -⟩ := h
    subst hrec
    exact ⟨rfl, rfl, rfl, rfl, rfl, rfl,
      u32val_lt e (off + 8) d, u32val_lt e (off + 12) d,
      u32val_lt e (off + 16) d, u32val_lt e (off + 20) d,
      u32val_lt e (off + 32) d, u32val_lt e (off + 36) d⟩
  · intro c h
    cases c with
    | ELF32 =>
      have hle : off + 40 ≤ d.length := by
        by_contra hlt
        push_neg at hlt
        obtain ⟨k, -, -, -, heq⟩ := parse_at_short_char e .ELF32 off d
          (by norm_num [recordLength, fieldWidths]; omega)
        rw [heq] at h
        exact absurd h (by simp)
      rw [parse_at_elf32_of_le e off d hle] at h
      simp only [Except.ok.injEq, Prod.mk.injEq] at h
      obtain ⟨hrec, -⟩ := h
      subst hrec
      exact ⟨rfl, rfl, u32val_lt e off d, u32val_lt e (off + 4) d,
        u32val_lt e (off + 24) d, u32val_lt e (off + 28) d,
        fun _ => ⟨rfl, rfl⟩, fun hc => Class.noConfusion hc⟩
    | ELF64 =>
      have hle : off + 64 ≤ d.length := by
        by_contra hlt
        push_neg at hlt
        obtain ⟨k, -, -, -, heq⟩ := parse_at_short_char e .ELF64 off d
          (by norm_num [recordLength, fieldWidths]; omega)
        rw [heq] at h
        exact absurd h (by simp)
      rw [parse_at_elf64_of_le e off d hle] at h
      simp only [Except.ok.injEq, Prod.mk.injEq] at h
      obtain ⟨hrec, -⟩ := h
      subst hrec
      exact ⟨rfl, rfl, u32val_lt e off d, u32val_lt e (off + 4) d,
        u32val_lt e (off + 40) d, u32val_lt e (off + 44) d,
        fun hc => Class.noConfusion hc, fun _ => ⟨rfl, rfl⟩⟩

/-- C4: over a buffer of `N` whole records plus an `r`-byte partial tail
the sequence yields exactly `N` items, all successful decodes, then no
further items (any fuel of at least `N` steps collects the same `N`
items), and `N` is the floor of buffer length over record length. -/
theorem c4_sequence_counts :
    ∀ e c d N r fuel,
      d.length = N * recordLength c + r → r < recordLength c → N ≤ fuel →
      (ParsingIterator.collect fuel (ParsingIterator.new e c d)).length = N ∧
      (∀ x ∈ ParsingIterator.collect fuel (ParsingIterator.new e c d),
        ∃ rec, x = Except.ok rec) ∧
      N = d.length / recordLength c := by
  intro e c d N r fuel hlen hr hf
  obtain ⟨hl, hok⟩ := collect_spec e c d N 0 fuel r (by omega) hr hf
  refine ⟨hl, hok, ?_⟩
  cases c with
  | ELF32 =>
    norm_num [recordLength, fieldWidths] at hlen hr ⊢
    omega
  | ELF64 =>
    norm_num [recordLength, fieldWidths] at hlen hr ⊢
    omega

/-- C5: a successful decode leaves the cursor at the start offset plus the
record length for the class (40 or 64 bytes, the sum of the ten field
widths), and each sequence step advances the sequence cursor by exactly
that record length, whatever the decode returned. -/
theorem c5_constant_stride :
    recordLength .ELF32 = 40 ∧ recordLength .ELF64 = 64 ∧
    (∀ c, recordLength c = (fieldWidths c).sum ∧ (fieldWidths c).length = 10) ∧
    (∀ e c off d rec off2,
      SectionHeader.parse_at e c off d = .ok (rec, off2) →
      off2 = off + recordLength c) ∧
    (∀ it : ParsingIterator, ∀ item it2,
      it.next = (some item, it2) →
      it2.offset = it.offset + recordLength it.cls) := by
  refine ⟨by decide, by decide, fun c => ⟨rfl, by cases c <;> decide⟩, ?_, ?_⟩
  · intro e c off d rec off2 h
    by_cases hle : off + recordLength c ≤ d.length
    · obtain ⟨rec2, hok⟩ := parse_at_ok_of_le e c off d hle
      rw [hok] at h
      simp only [Except.ok.injEq, Prod.mk.injEq] at h
      exact h.2.symm
    · push_neg at hle
      obtain ⟨k, -, -, -, heq⟩ := parse_at_short_char e c off d hle
      rw [heq] at h
      exact absurd h (by simp)
  · intro it item it2 h
    unfold ParsingIterator.next at h
    by_cases hc : it.data.length - it.offset < recordLength it.cls
    · rw [if_pos hc] at h
      exact absurd h (by simp)
    · rw [if_neg hc] at h
      cases hp : SectionHeader.parse_at it.endian it.cls it.offset it.data with
      | ok v =>
        obtain ⟨rec, o2⟩ := v
        simp only [hp] at h
        simp only [Prod.mk.injEq] at h
        rw [← h.2]
      | error err =>
        simp only [hp] at h
        simp only [Prod.mk.injEq] at h
        rw [← h.2]

/-- C6 counterexample: the display of a flags value is not fixed-width
text; the displays of the 64-bit values 1 and 16 have different lengths. -/
theorem c6_not_fixed_width :
    ¬((SectionFlag.display ⟨1⟩).length = (SectionFlag.display ⟨16⟩).length) := by
  decide

/-- C6 (amended): for every 64-bit value, the display of the flags value
is a `0x` prefix followed by lowercase hexadecimal digits that denote the
stored value exactly (minimal width, no padding). -/
theorem c6_display_hex :
    ∀ v : Nat, v < 2 ^ 64 →
      (SectionFlag.display ⟨v⟩).toList.take 2 = ['0', 'x'] ∧
      (∀ ch ∈ (SectionFlag.display ⟨v⟩).toList.drop 2,
        isLowerHexDigit ch = true) ∧
      hexListVal ((SectionFlag.display ⟨v⟩).toList.drop 2) = v := by
  intro v hv
  have h16 : v < 16 ^ 16 := by norm_num at hv ⊢; omega
  obtain ⟨hval, hdig⟩ := hexDigitsAux_spec 16 v (by norm_num) h16
  have hshow : (SectionFlag.display ⟨v⟩).toList =
      '0' :: 'x' :: hexDigitsAux 16 v := rfl
  rw [hshow]
  exact ⟨rfl, fun ch hch => hdig ch (by simpa using hch), by simpa using hval⟩

/-- C7: equality between a type code and a raw `u32` holds in both
directions and compares the wrapped value directly, so it holds exactly
when the raw values are equal. -/
theorem c7_eq_both_directions :
    ∀ a b : Nat,
      (SectionType.eqU32 ⟨a⟩ b = true ↔ a = b) ∧
      (u32EqSectionType b ⟨a⟩ = true ↔ b = a) ∧
      SectionType.eqU32 ⟨a⟩ b = u32EqSectionType b ⟨a⟩ := by
  intro a b
  refine ⟨by simp [SectionType.eqU32], by simp [u32EqSectionType], ?_⟩
  by_cases h : a = b
  · subst h
    simp [SectionType.eqU32, u32EqSectionType]
  · simp [SectionType.eqU32, u32EqSectionType, h, Ne.symm h]

/-- C8: classification of a type code is a total lookup; code 0 displays
the null-section symbolic name, and every code absent from the fixed table
of known codes — 0xFFFFFFFF among them — displays the generic
unrecognized label. -/
theorem c8_classification :
    SectionType.display ⟨0⟩ = "SHT_NULL" ∧
    (∀ v : Nat, v ∉ knownCodes → SectionType.display ⟨v⟩ = "Unknown") ∧
    SectionType.display ⟨0xFFFFFFFF⟩ = "Unknown" := by
  refine ⟨rfl, ?_, rfl⟩
  intro v hv
  simp only [knownCodes, List.mem_cons, List.not_mem_nil, or_false,
    not_or] at hv
  obtain ⟨h1, h2, h3, h4, h5, h6, h7, h8, h9, h10, h11, h12, h13, h14,
    h15, h16, h17, h18, h19, h20, h21, h22, h23, h24⟩ := hv
  simp [SectionType.display, h1, h2, h3, h4, h5, h6, h7, h8, h9, h10,
    h11, h12, h13, h14, h15, h16, h17, h18, h19, h20, h21, h22, h23, h24]

/-- C9: a failing decode reports the insufficient-bytes error of the first
field read that cannot be satisfied: the reported offset is the start
offset plus the widths of the fields before it, every earlier field fits
in the buffer, and that field does not. -/
theorem c9_first_failure :
    ∀ e c off d err,
      SectionHeader.parse_at e c off d = .error err →
      ∃ k, k < 10 ∧
        err = .BadOffset (off + ((fieldWidths c).take k).sum) ∧
        (∀ j, j < k → off + ((fieldWidths c).take (j + 1)).sum ≤ d.length) ∧
        d.length < off + ((fieldWidths c).take (k + 1)).sum := by
  intro e c off d err herr
  have hshort : d.length < off + recordLength c := by
    by_contra hge
    push_neg at hge
    obtain ⟨rec, hok⟩ := parse_at_ok_of_le e c off d hge
    rw [hok] at herr
    exact absurd herr (by simp)
  obtain ⟨k, hk, hforall, hlt, heq⟩ := parse_at_short_char e c off d hshort
  rw [heq] at herr
  injection herr with h2
  exact ⟨k, hk, h2.symm, hforall, hlt⟩

/-- C9 witness: decoding the empty buffer fails at the first field, whose
reported offset is the start offset 0. -/
theorem c9_first_failure_witness :
    ∃ k, k < 10 ∧
      ParseError.BadOffset 0 =
        .BadOffset (0 + ((fieldWidths .ELF32).take k).sum) ∧
      (∀ j, j < k →
        0 + ((fieldWidths .ELF32).take (j + 1)).sum ≤ ([] : List Nat).length) ∧
      ([] : List Nat).length < 0 + ((fieldWidths .ELF32).take (k + 1)).sum :=
  c9_first_failure .Little .ELF32 0 [] (.BadOffset 0) rfl

/-- C10: a decode is deterministic and local to its record window; two
buffers that agree on the record-length bytes at the offset, each long
enough, decode to the same result. -/
theorem c10_locality :
    ∀ e c off d1 d2,
      off + recordLength c ≤ d1.length →
      off + recordLength c ≤ d2.length →
      (∀ i, i < recordLength c → d1.getD (off + i) 0 = d2.getD (off + i) 0) →
      SectionHeader.parse_at e c off d1 = SectionHeader.parse_at e c off d2 := by
  intro e c off d1 d2 h1 h2 hb
  have hB : ∀ i, i < recordLength c → byteAt d1 (off + i) = byteAt d2 (off + i) := by
    intro i hi
    unfold byteAt
    rw [hb i hi]
  cases c with
  | ELF32 =>
    have h40a : off + 40 ≤ d1.length := by
      simpa [recordLength, fieldWidths] using h1
    have h40b : off + 40 ≤ d2.length := by
      simpa [recordLength, fieldWidths] using h2
    have hB40 : ∀ i, i < 40 → byteAt d1 (off + i) = byteAt d2 (off + i) := by
      intro i hi
      exact hB i (by norm_num [recordLength, fieldWidths]; omega)
    have f : ∀ k, k + 4 ≤ 40 →
        u32val e (off + k) d1 = u32val e (off + k) d2 := by
      intro k hk
      apply u32val_congr
      intro j hj
      rw [Nat.add_assoc]
      exact hB40 (k + j) (by omega)
    have fname : u32val e off d1 = u32val e off d2 := by
      apply u32val_congr
      intro j hj
      exact hB40 j (by omega)
    rw [parse_at_elf32_of_le e off d1 h40a, parse_at_elf32_of_le e off d2 h40b]
    simp only [Except.ok.injEq, Prod.mk.injEq, SectionHeader.mk.injEq,
      SectionType.mk.injEq, SectionFlag.mk.injEq]
    exact ⟨⟨fname, f 4 (by norm_num), f 8 (by norm_num), f 12 (by norm_num),
      f 16 (by norm_num), f 20 (by norm_num), f 24 (by norm_num),
      f 28 (by norm_num), f 32 (by norm_num), f 36 (by norm_num)⟩, trivial⟩
  | ELF64 =>
    have h64a : off + 64 ≤ d1.length := by
      simpa [recordLength, fieldWidths] using h1
    have h64b : off + 64 ≤ d2.length := by
      simpa [recordLength, fieldWidths] using h2
    have hB64 : ∀ i, i < 64 → byteAt d1 (off + i) = byteAt d2 (off + i) := by
      intro i hi
      exact hB i (by norm_num [recordLength, fieldWidths]; omega)
    have f : ∀ k, k + 4 ≤ 64 →
        u32val e (off + k) d1 = u32val e (off + k) d2 := by
      intro k hk
      apply u32val_congr
      intro j hj
      rw [Nat.add_assoc]
      exact hB64 (k + j) (by omega)
    have g : ∀ k, k + 8 ≤ 64 →
        u64val e (off + k) d1 = u64val e (off + k) d2 := by
      intro k hk
      apply u64val_congr
      intro j hj
      rw [Nat.add_assoc]
      exact hB64 (k + j) (by omega)
    have fname : u32val e off d1 = u32val e off d2 := by
      apply u32val_congr
      intro j hj
      exact hB64 j (by omega)
    rw [parse_at_elf64_of_le e off d1 h64a, parse_at_elf64_of_le e off d2 h64b]
    simp only [Except.ok.injEq, Prod.mk.injEq, SectionHeader.mk.injEq,
      SectionType.mk.injEq, SectionFlag.mk.injEq]
    exact ⟨⟨fname, f 4 (by norm_num), g 8 (by norm_num), g 16 (by norm_num),
      g 24 (by norm_num), g 32 (by norm_num), f 40 (by norm_num),
      f 44 (by norm_num), g 48 (by norm_num), g 56 (by norm_num)⟩, trivial⟩

/-- C10 witness: a buffer with one trailing extra byte decodes to the same
record as the bare 40-byte buffer. -/
theorem c10_locality_witness :
    SectionHeader.parse_at .Little .ELF32 0 (List.range 40 ++ [255]) =
      SectionHeader.parse_at .Little .ELF32 0 (List.range 40) :=
  c10_locality .Little .ELF32 0 (List.range 40 ++ [255]) (List.range 40)
    (by decide) (by decide) (by decide)

/-- C4 witness: a 100-byte buffer holds two whole 40-byte records and a
20-byte tail; driving the sequence three steps yields two items, both
successful, and two is the floor of 100 over 40. -/
theorem c4_sequence_counts_witness :
    (ParsingIterator.collect 3
      (ParsingIterator.new .Little .ELF32 (List.range 100))).length = 2 ∧
    (∀ x ∈ ParsingIterator.collect 3
      (ParsingIterator.new .Little .ELF32 (List.range 100)),
      ∃ rec, x = Except.ok rec) ∧
    2 = (List.range 100).length / recordLength .ELF32 :=
  c4_sequence_counts .Little .ELF32 (List.range 100) 2 20 3
    (by decide) (by decide) (by decide)

/-- C6 witness: the display of the flags value from the 32-bit golden
vector is a `0x` prefix, lowercase hexadecimal digits, and denotes the
stored value. -/
theorem c6_display_hex_witness :
    (SectionFlag.display ⟨0x0B0A0908⟩).toList.take 2 = ['0', 'x'] ∧
    (∀ ch ∈ (SectionFlag.display ⟨0x0B0A0908⟩).toList.drop 2,
      isLowerHexDigit ch = true) ∧
    hexListVal ((SectionFlag.display ⟨0x0B0A0908⟩).toList.drop 2) =
      0x0B0A0908 :=
  c6_display_hex 0x0B0A0908 (by norm_num)

end Elf
